import Mathlib

/-!
A shallow embedding of `parameters_checker.py` (AUTOSAR parameters checker).

The Python module reconciles expected configuration parameter values
(extracted from a requirements spreadsheet) against the values found in a
tree of `.arxml` configuration files.  The embedding below translates the
core functions line by line:

* `get_param`, `fill_params_dict`, `process_rows` — requirement parsing and
  accumulation of the expected-parameter table;
* `search_for_param` (with `scanFile`) — the line-oriented configuration
  scanner;
* `compute_param`, `compute_params` — the reconciliation engine.

Modelling conventions:

* Python `dict`s become association lists (`List (key × value)`) with
  insertion at the end and `List.lookup`, matching dict insertion-order
  semantics for the operations the code performs.
* Fallible code (uncaught `StopIteration` from `next()` on an exhausted
  file, `TypeError` from `"Requirement" in None`, `AttributeError` from
  `None.replace`, `StopIteration` from `next(iter(set()))`) is modelled by
  an `Option` result, `none` meaning the exception propagates.
* The Python `set` `value_decider` is modelled by `List.dedup` of the value
  list; the code only observes its size and, when the size is one, its sole
  element, so any duplicate-free list is a faithful model.
* Regexes are modelled by their semantics on the inputs the program feeds
  them: the file lines handed to `search_for_param` and the
  newline-replaced text handed to `get_param` contain no `'\n'`, so the
  "`.` does not match newline" subtlety of Python regexes cannot fire, and
  greedy `(.*)` groups become "cut at the last occurrence" list functions.
  Python's `\w` is modelled as ASCII alphanumeric or underscore.
-/

/-- The whitespace set of Python's `str.strip` / `str.split()` (ASCII part). -/
def isPyWs (c : Char) : Bool :=
  c = ' ' || c = '\t' || c = '\n' || c = '\r' || c = '\x0b' || c = '\x0c'

/-- Python `str.strip()`: drop leading and trailing whitespace. -/
def pyStrip (s : String) : String :=
  ⟨((s.data.dropWhile isPyWs).reverse.dropWhile isPyWs).reverse⟩

/-- Python's substring test `pat in s` on character lists. -/
def containsSubList : List Char → List Char → Bool
  | pat, [] => pat.isEmpty
  | pat, c :: t => pat.isPrefixOf (c :: t) || containsSubList pat t

/-- Python's substring test `pat in s`. -/
def containsSub (pat s : String) : Bool :=
  containsSubList pat.data s.data

/-- Python `str.replace("\n", " ")`. -/
def pyReplace (s : String) : String :=
  ⟨s.data.map (fun c => if c = '\n' then ' ' else c)⟩

/-- Python `\w` (ASCII fragment): letters, digits, underscore. -/
def isWordChar (c : Char) : Bool :=
  c.isAlphanum || c = '_'

/-- The prefix of `l` that ends just before the last occurrence of `pat`
(`none` if `pat` does not occur).  This is what a greedy `(.*)` followed by
the literal `pat` captures in a Python regex on newline-free input. -/
def cutAtLast (pat : List Char) : List Char → Option (List Char)
  | [] => none
  | c :: t =>
    match cutAtLast pat t with
    | some g => some (c :: g)
    | none => if pat.isPrefixOf (c :: t) then some [] else none

/-! ### Requirement parser: `get_param` (regex `(.*)shall be set to.(.*[\w])`) -/

/-- The literal keyword of the `get_param` regex. -/
def kwChars : List Char := "shall be set to".data

/-- The keyword without its first character (the suffix scanned for later
keyword occurrences when reasoning about the greedy group 1). -/
def kwTail : List Char := "hall be set to".data

/-- After the keyword the regex needs one separator character (`.`) and a
capture `(.*[\w])`, i.e. at least one word character after the separator. -/
def tailOkB : List Char → Bool
  | [] => false
  | _ :: r => r.any isWordChar

/-- Greedy search for the match of `(.*)shall be set to.(.*[\w])`:
the *last* position at which the keyword occurs with a viable tail wins
(greedy group 1 backtracks from the longest prefix).  Returns the prefix
captured by group 1 and the characters following the keyword. -/
def findLast : List Char → Option (List Char × List Char)
  | [] => none
  | c :: cs =>
    match findLast cs with
    | some (p, t) => some (c :: p, t)
    | none =>
      if kwChars.isPrefixOf (c :: cs) && tailOkB (List.drop 15 (c :: cs)) then
        some ([], List.drop 15 (c :: cs))
      else
        none

/-- Keep everything up to (and including) the last word character: the
capture of a greedy `(.*[\w])` reaching to the end of the line. -/
def takeToLastWord (l : List Char) : List Char :=
  ((l.reverse.dropWhile (fun c => !isWordChar c)).reverse)

/-- `get_param` from the Python source: match
`(.*)shall be set to.(.*[\w])` at the start of `line`; on success return
`(group 1, group 2)`, otherwise `None`.  The caller always feeds it
newline-free text (`text.replace("\n", " ")`). -/
def get_param (line : String) : Option (String × String) :=
  match findLast line.data with
  | some (p, _ :: rest) => some (⟨p⟩, ⟨takeToLastWord rest⟩)
  | _ => none

/-! ### Requirement extractor: `fill_params_dict` and the spreadsheet loop -/

/-- Python's `key in dict` on an association list. -/
def hasKey {β : Type} (n : String) : List (String × β) → Bool
  | [] => false
  | p :: t => n == p.1 || hasKey n t

/-- `fill_params_dict` from the Python source.  `objectType`/`text` are the
spreadsheet cells (`none` models an empty cell, whose `value` is Python's
`None`).  The result is `none` when the Python code raises
(`"Requirement" in None` → `TypeError`; `None.replace` → `AttributeError`);
otherwise it returns the updated table, the registered name (if any) and
whether the duplicate-name warning was printed. -/
def fill_params_dict (objectType text : Option String)
    (parameters : List (String × String)) :
    Option (List (String × String) × Option String × Bool) :=
  match objectType with
  | none => none
  | some ot =>
    if containsSub "Requirement" ot then
      match text with
      | none => none
      | some t =>
        match get_param (pyReplace t) with
        | some res =>
          if hasKey (pyStrip res.1) parameters then
            some (parameters, none, true)
          else
            some (parameters ++ [(pyStrip res.1, res.2)], some (pyStrip res.1), false)
        | none => some (parameters, none, false)
    else
      some (parameters, none, false)

/-- The row loop of `extract_params_from_excel`, restricted to the
`parameters` table it builds (the `parameters_cells` bookkeeping carries no
logic). -/
def process_rows (parameters : List (String × String)) :
    List (Option String × Option String) → Option (List (String × String))
  | [] => some parameters
  | r :: rs =>
    (fill_params_dict r.1 r.2 parameters).bind (fun s => process_rows s.1 rs)

/-- What one spreadsheet row with string cells contributes: the
`(stripped name, value)` pair produced by `get_param` on the
newline-replaced text, if the row is a requirement row that parses. -/
def parse_row (r : String × String) : Option (String × String) :=
  if containsSub "Requirement" r.1 then
    (get_param (pyReplace r.2)).map (fun q => (pyStrip q.1, q.2))
  else
    none

/-! ### Configuration scanner: `search_for_param` -/

/-- One occurrence of a parameter in a configuration file:
`[arxml_file, line.strip(), value]` in the Python source. -/
structure Occ where
  file : String
  line : String
  value : String
deriving DecidableEq

/-- A match attempt of `>/(.*)</` at the head of `l`:
succeeds when `l` starts with `>/` and `</` occurs later; the greedy group
runs to the last `</`. -/
def tryParamAt (l : List Char) : Option (List Char) :=
  match l with
  | '>' :: '/' :: rest => cutAtLast ['<', '/'] rest
  | _ => none

/-- `re.search` of `>/(.*)</`: try every position left to right. -/
def paramSearch : List Char → Option (List Char)
  | [] => none
  | c :: cs =>
    match tryParamAt (c :: cs) with
    | some g => some g
    | none => paramSearch cs

/-- `param_pattern.search(line)` returning group 1. -/
def param_match (line : String) : Option String :=
  (paramSearch line.data).map (fun g => ⟨g⟩)

/-- Python `group(1).split("/")[-1]`: the segment after the last slash. -/
def lastSegmentS (g : String) : String :=
  ⟨(g.data.reverse.takeWhile (fun c => c ≠ '/')).reverse⟩

/-- `value_pattern.match(next_line.strip())` returning group 1: the line
must start with `<VALUE>` and the greedy group runs to the last
`</VALUE>`. -/
def value_match (s : String) : Option String :=
  if ("<VALUE>".data).isPrefixOf s.data then
    (cutAtLast ("</VALUE>".data) (s.data.drop 7)).map (fun g => ⟨g⟩)
  else
    none

/-- The per-file loop of `search_for_param`.  A recognized definition line
whose short name is requested consumes the following line with `next()`;
at end of file that `next()` raises `StopIteration` (modelled by `none`),
aborting the whole search.  Returns the `(name, occurrence)` pairs in
encounter order. -/
def scanFile (params : List String) (file : String) :
    List String → Option (List (String × Occ))
  | [] => some []
  | line :: rest =>
    if containsSub "DEFINITION-REF" line then
      match param_match line with
      | some g =>
        if params.contains (lastSegmentS g) then
          match rest with
          | [] => none
          | next_line :: rest2 =>
            match value_match (pyStrip next_line) with
            | some v =>
              Option.map (fun t => (lastSegmentS g, Occ.mk file (pyStrip line) v) :: t)
                (scanFile params file rest2)
            | none => scanFile params file rest2
        else scanFile params file rest
      | none => scanFile params file rest
    else scanFile params file rest

/-- Insert one occurrence into the occurrence table: append to the list
under the key if present, otherwise create the key (at the end, matching
dict insertion order). -/
def addOcc (tbl : List (String × List Occ)) (n : String) (o : Occ) :
    List (String × List Occ) :=
  if hasKey n tbl then
    tbl.map (fun e => if e.1 == n then (e.1, e.2 ++ [o]) else e)
  else
    tbl ++ [(n, [o])]

/-- The file loop of `search_for_param`, threading the occurrence table. -/
def search_aux (params : List String) :
    List (String × List String) → List (String × List Occ) →
    Option (List (String × List Occ))
  | [], tbl => some tbl
  | f :: fs, tbl =>
    match scanFile params f.1 f.2 with
    | none => none
    | some occs =>
      search_aux params fs (occs.foldl (fun t q => addOcc t q.1 q.2) tbl)

/-- `search_for_param` from the Python source.  `files` is the list of
`.arxml` files produced by `find_arxml_files`, each as a path plus its
lines (without trailing newlines); `params` is the set of requested
parameter names (the keys of the expected-parameter dict). -/
def search_for_param (params : List String)
    (files : List (String × List String)) : Option (List (String × List Occ)) :=
  search_aux params files []

/-! ### Reconciliation engine: `compute_param` / `compute_params` -/

/-- The record built by `get_container_dict`. -/
structure ContainerDict where
  name : String
  expected_value : String
  actual_value : String
  found_in : String
deriving DecidableEq

/-- `get_container_dict` from the Python source. -/
def get_container_dict (param_name param_expected_value actual_value_field
    found_field : String) : ContainerDict :=
  ⟨param_name, param_expected_value, actual_value_field, found_field⟩

/-- The `found_field` string accumulated by the loop in `compute_param`. -/
def found_field (rs : List Occ) : String :=
  rs.foldl (fun s r => s ++ "File: " ++ r.file ++ " at line: " ++ r.line ++ "   <br />") ""

/-- The `actual_value_field` string accumulated by the loop in
`compute_param` (before the branch-specific suffix is appended). -/
def actual_value_acc (rs : List Occ) : String :=
  rs.foldl
    (fun s r =>
      s ++ "Value in " ++ r.file ++ ": <span style=\"color:red\">" ++ r.value
        ++ "</span>   <br />")
    ""

/-- The suffix appended in the ambiguous branch. -/
def cannotDecideMsg : String :=
  "Could not decide the value. Multiple different values exists. Check above and correct"

/-- The suffix appended in the single-value branch. -/
def computedValueMsg (v : String) : String :=
  "Computed actual value: <span style=\"color:green\">" ++ v ++ "</span>"

/-- Python `s.upper().split(" ")[0]`: uppercase, then keep the characters
before the first space character (the whole string if it has no space,
the empty string if it starts with one). -/
def pyNormalize (s : String) : String :=
  ⟨(s.data.map Char.toUpper).takeWhile (fun c => c ≠ ' ')⟩

/-- `compute_param` from the Python source.  The `value_decider` set is
modelled by `List.dedup` of the extracted values; `next(iter(value_decider))`
on an empty set raises `StopIteration`, modelled by `none`.  The result
models the returned triple
`(values_as_expected, cannot_decide_value, not_equal_expected_actual_values)`,
each a dict with at most the one key `param_name`. -/
def compute_param (param_name param_expected_value : String)
    (param_result : List Occ) :
    Option (List (String × ContainerDict) × List (String × ContainerDict) ×
      List (String × ContainerDict)) :=
  if 1 < ((param_result.map Occ.value).dedup).length then
    some ([],
      [(param_name,
        get_container_dict param_name param_expected_value
          (actual_value_acc param_result ++ cannotDecideMsg)
          (found_field param_result))],
      [])
  else
    match (param_result.map Occ.value).dedup with
    | [] => none
    | computed_value :: _ =>
      if pyNormalize computed_value = pyNormalize param_expected_value then
        some ([(param_name,
          get_container_dict param_name param_expected_value
            (actual_value_acc param_result ++ computedValueMsg (pyNormalize computed_value))
            (found_field param_result))],
          [], [])
      else
        some ([], [],
          [(param_name,
            get_container_dict param_name param_expected_value
              (actual_value_acc param_result ++ computedValueMsg (pyNormalize computed_value))
              (found_field param_result))])

/-- The record placed in `nothing_found_container` for an absent
parameter. -/
def not_found_dict (n v : String) : ContainerDict :=
  ⟨n, v, "not found", "not found"⟩

/-- The parameter loop of `compute_params`, threading the four buckets
`(values_as_expected, nothing_found_container, cannot_decide_value,
not_equal_expected_actual_values)`. -/
def compute_params_aux (tbl : List (String × List Occ)) :
    List (String × String) →
    List (String × ContainerDict) × List (String × ContainerDict) ×
      List (String × ContainerDict) × List (String × ContainerDict) →
    Option (List (String × ContainerDict) × List (String × ContainerDict) ×
      List (String × ContainerDict) × List (String × ContainerDict))
  | [], acc => some acc
  | (n, v) :: rest, (a, b, c, d) =>
    match List.lookup n tbl with
    | none => compute_params_aux tbl rest (a, b ++ [(n, not_found_dict n v)], c, d)
    | some res =>
      match compute_param n v res with
      | none => none
      | some (r1, r2, r3) =>
        compute_params_aux tbl rest (a ++ r1, b, c ++ r2, d ++ r3)

/-- `compute_params` from the Python source: classify every expected
parameter; dict merges `{**acc, **result[i]}` become appends because each
iteration contributes a fresh key. -/
def compute_params (parameters : List (String × String))
    (tbl : List (String × List Occ)) :
    Option (List (String × ContainerDict) × List (String × ContainerDict) ×
      List (String × ContainerDict) × List (String × ContainerDict)) :=
  compute_params_aux tbl parameters ([], [], [], [])

/-- The key list of a bucket. -/
def keysB (l : List (String × ContainerDict)) : List String :=
  l.map Prod.fst

/-! ### Spec-side definitions (used only to state claims against) -/

/-- Modelled from the spec: the normalization the specification describes,
"convert to a case-insensitive canonical form and take only the first
whitespace-delimited token" — uppercase, drop leading whitespace, take up
to the next whitespace (Python `s.upper().split()[0]`-style tokenizing). -/
def specNormalizeWs (s : String) : String :=
  ⟨((s.data.map Char.toUpper).dropWhile isPyWs).takeWhile (fun c => !isPyWs c)⟩

/-- The last character of `l` is a word character. -/
def endsInWordB (l : List Char) : Bool :=
  match l.reverse with
  | [] => false
  | c :: _ => isWordChar c

/-! ### Generic association-list lemmas -/

theorem lookup_append_or {β : Type} (l₁ l₂ : List (String × β)) (n : String) :
    List.lookup n (l₁ ++ l₂) = (List.lookup n l₁).or (List.lookup n l₂) := by
  induction l₁ with
  | nil => simp [List.lookup]
  | cons p t ih =>
    obtain ⟨k, x⟩ := p
    cases h : (n == k) <;> simp [List.lookup, h, ih, Option.or]

theorem lookup_mem {β : Type} {n : String} {x : β} :
    ∀ {l : List (String × β)}, List.lookup n l = some x → (n, x) ∈ l := by
  intro l
  induction l with
  | nil => intro h; simp [List.lookup] at h
  | cons p t ih =>
    obtain ⟨k, y⟩ := p
    intro h
    cases hk : (n == k) with
    | true =>
      rw [List.lookup, hk] at h
      obtain rfl : y = x := by simpa using h
      have : n = k := eq_of_beq hk
      subst this
      exact List.mem_cons_self _ _
    | false =>
      rw [List.lookup, hk] at h
      exact List.mem_cons_of_mem _ (ih h)

theorem hasKey_eq_lookup_isSome {β : Type} (l : List (String × β)) (n : String) :
    hasKey n l = (List.lookup n l).isSome := by
  induction l with
  | nil => rfl
  | cons p t ih =>
    obtain ⟨k, x⟩ := p
    cases h : (n == k) <;> simp [List.lookup, hasKey, h, ih]

/-! ### `compute_param` branch lemmas -/

theorem compute_param_of_ambig {n e : String} {rs : List Occ}
    (h : 1 < ((rs.map Occ.value).dedup).length) :
    compute_param n e rs =
      some ([],
        [(n, get_container_dict n e (actual_value_acc rs ++ cannotDecideMsg)
            (found_field rs))],
        []) := by
  unfold compute_param
  rw [if_pos h]

theorem compute_param_of_single {n e v : String} {rs : List Occ}
    (h : (rs.map Occ.value).dedup = [v]) :
    compute_param n e rs =
      if pyNormalize v = pyNormalize e then
        some ([(n, get_container_dict n e
            (actual_value_acc rs ++ computedValueMsg (pyNormalize v))
            (found_field rs))], [], [])
      else
        some ([], [],
          [(n, get_container_dict n e
              (actual_value_acc rs ++ computedValueMsg (pyNormalize v))
              (found_field rs))]) := by
  unfold compute_param
  rw [h]
  simp

theorem compute_param_of_nil {n e : String} {rs : List Occ}
    (h : (rs.map Occ.value).dedup = []) : compute_param n e rs = none := by
  unfold compute_param
  rw [h]
  simp

theorem compute_param_isSome {n e : String} {rs : List Occ} (h : rs ≠ []) :
    (compute_param n e rs).isSome := by
  rcases hd : (rs.map Occ.value).dedup with _ | ⟨v, t⟩
  · rw [List.dedup_eq_nil, List.map_eq_nil_iff] at hd
    exact absurd hd h
  · by_cases h1 : 1 < ((rs.map Occ.value).dedup).length
    · rw [compute_param_of_ambig h1]; rfl
    · have ht : t = [] := by
        rw [hd] at h1
        simp only [List.length_cons, not_lt] at h1
        have : t.length = 0 := by omega
        exact List.length_eq_zero.mp this
      subst ht
      rw [compute_param_of_single hd]
      split <;> rfl

/-! ### Claim C2 -/

/-- C2 counterexample: the claim describes the normalization as "uppercased
and truncated to the first whitespace-delimited token".  The code uses
`upper().split(" ")[0]`, which only splits on the space character.  For the
single distinct actual value `"10\tms"` against expected `"10"`, the
claim's whitespace-token normalization makes both sides `"10"` (so the
claim predicts AGREED), yet `compute_param` classifies the parameter
MISMATCHED (the `not_equal_expected_actual_values` bucket). -/
theorem compute_param_whitespace_counterexample :
    (compute_param "P" "10" [Occ.mk "f.arxml" "some line" "10\tms"]).map
        (fun r => (r.1.map Prod.fst, r.2.1.map Prod.fst, r.2.2.map Prod.fst))
      = some ([], [], ["P"])
    ∧ specNormalizeWs "10\tms" = specNormalizeWs "10" := ⟨rfl, rfl⟩

/-- C2 (amended): for every expected parameter whose occurrence list
contains exactly one distinct extracted value `v`, both `v` and the
expected value are normalized identically — uppercased and truncated at
the first *space character* (other whitespace such as tabs is not a
delimiter, and a value starting with a space normalizes to the empty
token) — and the parameter is classified AGREED (`values_as_expected`)
when the normalized tokens are equal and MISMATCHED
(`not_equal_expected_actual_values`) otherwise. -/
theorem compute_param_single_distinct_normalization (n e v : String)
    (rs : List Occ) (h : (rs.map Occ.value).dedup = [v]) :
    compute_param n e rs =
      if pyNormalize v = pyNormalize e then
        some ([(n, get_container_dict n e
            (actual_value_acc rs ++ computedValueMsg (pyNormalize v))
            (found_field rs))], [], [])
      else
        some ([], [],
          [(n, get_container_dict n e
              (actual_value_acc rs ++ computedValueMsg (pyNormalize v))
              (found_field rs))]) :=
  compute_param_of_single h

/-- C2 witness: expected `"10 ms"` against the single actual value
`"10 MS"` normalizes to `"10"` on both sides and lands in the AGREED
bucket. -/
theorem compute_param_single_distinct_normalization_witness :
    compute_param "P" "10 ms" [Occ.mk "f" "l" "10 MS"] =
      some ([("P", get_container_dict "P" "10 ms"
          (actual_value_acc [Occ.mk "f" "l" "10 MS"] ++ computedValueMsg "10")
          (found_field [Occ.mk "f" "l" "10 MS"]))], [], []) :=
  (compute_param_single_distinct_normalization "P" "10 ms" "10 MS"
    [Occ.mk "f" "l" "10 MS"] rfl).trans (by rfl)

/-! ### Claim C3 -/

/-- C3: for every expected parameter whose occurrence list contains more
than one distinct extracted value, `compute_param` classifies it AMBIGUOUS
(the `cannot_decide_value` bucket is exactly the singleton for the name,
the other two buckets are empty) with the display built from the raw,
unnormalized occurrence values plus the fixed diagnostic suffix; and for
any reordering of the occurrence list the classification is still
AMBIGUOUS. -/
theorem compute_param_ambiguous_classification (n e : String)
    (rs rs' : List Occ) (h : 1 < ((rs.map Occ.value).dedup).length)
    (hperm : rs.Perm rs') :
    compute_param n e rs =
      some ([],
        [(n, get_container_dict n e (actual_value_acc rs ++ cannotDecideMsg)
            (found_field rs))],
        [])
    ∧ ∃ cd, compute_param n e rs' = some ([], [(n, cd)], []) := by
  refine ⟨compute_param_of_ambig h, ?_⟩
  have hd : ((rs.map Occ.value).dedup).Perm ((rs'.map Occ.value).dedup) :=
    (hperm.map Occ.value).dedup
  have h' : 1 < ((rs'.map Occ.value).dedup).length := by
    rw [← hd.length_eq]; exact h
  exact ⟨_, compute_param_of_ambig h'⟩

/-- C3 witness: values `"A"` and `"B"` in two files are AMBIGUOUS in either
scan order. -/
theorem compute_param_ambiguous_classification_witness :
    compute_param "P" "E" [Occ.mk "f" "l" "A", Occ.mk "g" "m" "B"] =
      some ([],
        [("P", get_container_dict "P" "E"
            (actual_value_acc [Occ.mk "f" "l" "A", Occ.mk "g" "m" "B"] ++ cannotDecideMsg)
            (found_field [Occ.mk "f" "l" "A", Occ.mk "g" "m" "B"]))],
        [])
    ∧ ∃ cd, compute_param "P" "E" [Occ.mk "g" "m" "B", Occ.mk "f" "l" "A"] =
        some ([], [("P", cd)], []) :=
  compute_param_ambiguous_classification "P" "E" _ _ (by decide)
    (List.Perm.swap (Occ.mk "g" "m" "B") (Occ.mk "f" "l" "A") [])

/-! ### Claim C5 -/

/-- C5: permuting a parameter's occurrence list before classification never
changes which bucket `compute_param` assigns the parameter to (including
the crash outcome): the key sets of the three returned dictionaries are
identical for any two permutations of the occurrence list.  Only the
display strings inside the records may differ. -/
theorem compute_param_order_independent (n e : String) (rs rs' : List Occ)
    (hperm : rs.Perm rs') :
    (compute_param n e rs).map (fun r => (keysB r.1, keysB r.2.1, keysB r.2.2))
      = (compute_param n e rs').map (fun r => (keysB r.1, keysB r.2.1, keysB r.2.2)) := by
  have hd : ((rs.map Occ.value).dedup).Perm ((rs'.map Occ.value).dedup) :=
    (hperm.map Occ.value).dedup
  rcases h : (rs.map Occ.value).dedup with _ | ⟨v, _ | ⟨w, t⟩⟩
  · have h' : (rs'.map Occ.value).dedup = [] := by
      rw [h] at hd
      exact hd.symm.eq_nil
    rw [compute_param_of_nil h, compute_param_of_nil h']
  · have h' : (rs'.map Occ.value).dedup = [v] := by
      rw [h] at hd
      exact List.perm_singleton.mp hd.symm
    rw [compute_param_of_single h, compute_param_of_single h']
    by_cases hc : pyNormalize v = pyNormalize e <;> simp [hc, keysB]
  · have hlen : 1 < ((rs.map Occ.value).dedup).length := by
      rw [h]; simp [List.length_cons]
    have hlen' : 1 < ((rs'.map Occ.value).dedup).length := by
      rw [← hd.length_eq]; exact hlen
    rw [compute_param_of_ambig hlen, compute_param_of_ambig hlen']
    simp [keysB]

/-- C5 witness: swapping two occurrences leaves the bucket pattern
unchanged. -/
theorem compute_param_order_independent_witness :
    (compute_param "P" "E" [Occ.mk "f" "l" "A", Occ.mk "g" "m" "B"]).map
        (fun r => (keysB r.1, keysB r.2.1, keysB r.2.2))
      = (compute_param "P" "E" [Occ.mk "g" "m" "B", Occ.mk "f" "l" "A"]).map
        (fun r => (keysB r.1, keysB r.2.1, keysB r.2.2)) :=
  compute_param_order_independent "P" "E" _ _
    (List.Perm.swap (Occ.mk "g" "m" "B") (Occ.mk "f" "l" "A") [])

/-! ### Claim C8 -/

/-- C8 (code bug): when a recognized definition line whose short name is a
requested parameter is the *last* line of a file, the Python code calls
`next(xml_file)` on an exhausted iterator; the uncaught `StopIteration`
aborts the whole search (modelled by `none`), so nothing is scanned —
not even the well-formed subsequent file — contradicting the claim that
the candidate is merely discarded and scanning continues. -/
theorem search_for_param_crash_at_eof :
    search_for_param ["MyParam"]
      [("a.arxml", ["<DEFINITION-REF>/Pkg/MyParam</DEFINITION-REF>"]),
       ("b.arxml", ["<DEFINITION-REF>/Pkg/MyParam</DEFINITION-REF>", "<VALUE>1</VALUE>"])]
      = none := rfl

/-! ### Claim C9 -/

/-- C9 (code bug): a spreadsheet row whose object-type cell is empty
(`None` in Python) makes `fill_params_dict` evaluate
`"Requirement" in None`, which raises `TypeError` (modelled by `none`) and
aborts the extraction, contradicting the claim that such a row is silently
ignored without error. -/
theorem fill_params_dict_none_object_type_crash :
    fill_params_dict none (some "Any text") [] = none := rfl

/-! ### `get_param` lemmas (claim C6) -/

theorem kwChars_eq : kwChars = 's' :: kwTail := by decide

theorem isPrefixOf_append_self (p t : List Char) : p.isPrefixOf (p ++ t) = true := by
  rw [List.isPrefixOf_iff_prefix]
  exact List.prefix_append p t

theorem findLast_eq_none {l : List Char}
    (h : containsSubList kwChars l = false) : findLast l = none := by
  induction l with
  | nil => rfl
  | cons c cs ih =>
    rw [containsSubList, Bool.or_eq_false_iff] at h
    rw [findLast, ih h.2, h.1]
    simp

theorem findLast_cons_none {c : Char} {cs : List Char} (h : findLast cs = none) :
    findLast (c :: cs) =
      if kwChars.isPrefixOf (c :: cs) && tailOkB (List.drop 15 (c :: cs)) then
        some ([], List.drop 15 (c :: cs))
      else none := by
  rw [findLast, h]

theorem findLast_cons_some {c : Char} {cs : List Char} {p t : List Char}
    (h : findLast cs = some (p, t)) : findLast (c :: cs) = some (c :: p, t) := by
  rw [findLast, h]

theorem findLast_append (pre rest : List Char)
    (hno : containsSubList kwChars (kwTail ++ rest) = false)
    (hok : tailOkB rest = true) :
    findLast (pre ++ kwChars ++ rest) = some (pre, rest) := by
  induction pre with
  | nil =>
    rw [List.nil_append, kwChars_eq, List.cons_append]
    have h1 : findLast (kwTail ++ rest) = none := findLast_eq_none hno
    rw [findLast_cons_none h1]
    have hpre : kwChars.isPrefixOf ('s' :: (kwTail ++ rest)) = true := by
      rw [← List.cons_append, ← kwChars_eq]
      exact isPrefixOf_append_self _ _
    have hdrop : List.drop 15 ('s' :: (kwTail ++ rest)) = rest := by
      rw [← List.cons_append, ← kwChars_eq]
      have h15 : kwChars.length = 15 := by decide
      rw [← h15, List.drop_left]
    rw [hpre, hdrop, hok]
    simp
  | cons c pre ih =>
    have h2 := findLast_cons_some (c := c) ih
    simpa using h2

theorem tailOkB_cons_of_endsInWord {v : List Char} (h : endsInWordB v = true) :
    tailOkB (' ' :: v) = true := by
  show v.any isWordChar = true
  unfold endsInWordB at h
  rcases hr : v.reverse with _ | ⟨c, r⟩
  · rw [hr] at h
    simp at h
  · rw [hr] at h
    have hc : c ∈ v := by
      have hm : c ∈ v.reverse := by
        rw [hr]
        exact List.mem_cons_self _ _
      exact List.mem_reverse.mp hm
    exact List.any_eq_true.mpr ⟨c, hc, h⟩

theorem takeToLastWord_of_endsInWord {v : List Char} (h : endsInWordB v = true) :
    takeToLastWord v = v := by
  rcases hr : v.reverse with _ | ⟨c, r⟩
  · unfold endsInWordB at h
    rw [hr] at h
    simp at h
  · unfold endsInWordB at h
    rw [hr] at h
    have h' : isWordChar c = true := h
    unfold takeToLastWord
    rw [hr, List.dropWhile_cons]
    simp only [h', Bool.not_true, if_false]
    simp
    rw [← List.reverse_cons, ← hr, List.reverse_reverse]

/-! ### Claim C6 -/

/-- C6 counterexample: `get_param` does *not* return a trimmed parameter
path.  On `"A shall be set to 5"` the greedy group 1 is `"A "` (with the
trailing space); the `.strip()` happens later, in `fill_params_dict`. -/
theorem get_param_untrimmed_counterexample :
    get_param "A shall be set to 5" = some ("A ", "5") ∧ ("A " : String) ≠ "A" :=
  ⟨rfl, by decide⟩

/-- C6 (amended): `get_param` (after the caller replaces newlines with
spaces) returns `None` whenever the case-sensitive keyword
`"shall be set to"` is absent from the input — no partial or heuristic
matches; and on an input of the shape
`<parameter-path> ++ "shall be set to " ++ <value>` where the value ends
in a word character and the keyword does not recur after its first
character, it returns the pair (parameter path *untrimmed* — the caller
`fill_params_dict` strips it — and the value, whose capture extends to the
last word character of the line). -/
theorem get_param_characterization :
    (∀ line : String, containsSub "shall be set to" line = false →
        get_param line = none)
    ∧ (∀ n v : String, endsInWordB v.data = true →
        containsSubList kwChars (kwTail ++ (' ' :: v.data)) = false →
        ¬ '\n' ∈ n.data → ¬ '\n' ∈ v.data →
        get_param (n ++ "shall be set to " ++ v) = some (n, v)) := by
  constructor
  · intro line h
    have h1 : findLast line.data = none := findLast_eq_none h
    unfold get_param
    rw [h1]
  · intro n v hv hno _ _
    have hdata : (n ++ "shall be set to " ++ v).data
        = n.data ++ kwChars ++ (' ' :: v.data) := by
      have hs : "shall be set to ".data = kwChars ++ [' '] := by decide
      show (n.data ++ "shall be set to ".data) ++ v.data = _
      rw [hs]
      simp [List.append_assoc]
    have hfl : findLast ((n ++ "shall be set to " ++ v).data)
        = some (n.data, ' ' :: v.data) := by
      rw [hdata]
      exact findLast_append n.data (' ' :: v.data) hno (tailOkB_cons_of_endsInWord hv)
    unfold get_param
    rw [hfl]
    show some (⟨n.data⟩, ⟨takeToLastWord v.data⟩) = some (n, v)
    rw [takeToLastWord_of_endsInWord hv]

/-- C6 witness: an input without the keyword is rejected, and a well-formed
requirement sentence parses into the (untrimmed) path and the value. -/
theorem get_param_characterization_witness :
    get_param "no keyword here" = none
    ∧ get_param ("X " ++ "shall be set to " ++ "ON") = some ("X ", "ON") :=
  ⟨get_param_characterization.1 "no keyword here" (by decide),
   get_param_characterization.2 "X " "ON" (by decide) (by decide) (by decide) (by decide)⟩

/-! ### `fill_params_dict` lemmas (claim C7) -/

theorem fill_not_requirement {ot t : String} {ps : List (String × String)}
    (h : containsSub "Requirement" ot = false) :
    fill_params_dict (some ot) (some t) ps = some (ps, none, false) := by
  simp [fill_params_dict, h]

theorem fill_no_parse {ot t : String} {ps : List (String × String)}
    (h : containsSub "Requirement" ot = true)
    (hg : get_param (pyReplace t) = none) :
    fill_params_dict (some ot) (some t) ps = some (ps, none, false) := by
  simp [fill_params_dict, h, hg]

theorem fill_duplicate {ot t : String} {ps : List (String × String)}
    {q : String × String}
    (h : containsSub "Requirement" ot = true)
    (hg : get_param (pyReplace t) = some q)
    (hk : hasKey (pyStrip q.1) ps = true) :
    fill_params_dict (some ot) (some t) ps = some (ps, none, true) := by
  simp [fill_params_dict, h, hg, hk]

theorem fill_fresh {ot t : String} {ps : List (String × String)}
    {q : String × String}
    (h : containsSub "Requirement" ot = true)
    (hg : get_param (pyReplace t) = some q)
    (hk : hasKey (pyStrip q.1) ps = false) :
    fill_params_dict (some ot) (some t) ps
      = some (ps ++ [(pyStrip q.1, q.2)], some (pyStrip q.1), false) := by
  simp [fill_params_dict, h, hg, hk]

theorem process_rows_lookup (n : String) :
    ∀ (rows : List (String × String)) (ps out : List (String × String)),
      process_rows ps (rows.map (fun r => (some r.1, some r.2))) = some out →
      List.lookup n out =
        (List.lookup n ps).or
          (((rows.filterMap parse_row).find? (fun p => p.1 == n)).map Prod.snd) := by
  intro rows
  induction rows with
  | nil =>
    intro ps out h
    rw [List.map_nil, process_rows] at h
    obtain rfl : ps = out := by simpa using h
    simp [Option.or_none]
  | cons r rest ih =>
    intro ps out h
    rw [List.map_cons, process_rows] at h
    cases hcon : containsSub "Requirement" r.1 with
    | false =>
      rw [fill_not_requirement hcon] at h
      have hpr : parse_row r = none := by simp [parse_row, hcon]
      simp only [List.filterMap_cons, hpr]
      exact ih ps out h
    | true =>
      cases hg : get_param (pyReplace r.2) with
      | none =>
        rw [fill_no_parse hcon hg] at h
        have hpr : parse_row r = none := by simp [parse_row, hcon, hg]
        simp only [List.filterMap_cons, hpr]
        exact ih ps out h
      | some q =>
        have hpr : parse_row r = some (pyStrip q.1, q.2) := by
          simp [parse_row, hcon, hg]
        simp only [List.filterMap_cons, hpr]
        cases hk : hasKey (pyStrip q.1) ps with
        | true =>
          rw [fill_duplicate hcon hg hk] at h
          have base := ih ps out h
          rw [base]
          cases hmn : (pyStrip q.1 == n) with
          | true =>
            have hm : pyStrip q.1 = n := eq_of_beq hmn
            rw [List.find?_cons_of_pos _ (by simpa using hmn)]
            have hsome : (List.lookup n ps).isSome := by
              rw [← hasKey_eq_lookup_isSome, ← hm]
              exact hk
            obtain ⟨x, hx⟩ := Option.isSome_iff_exists.mp hsome
            rw [hx]
            rfl
          | false =>
            rw [List.find?_cons_of_neg _ (by simpa using hmn)]
        | false =>
          rw [fill_fresh hcon hg hk] at h
          have base := ih (ps ++ [(pyStrip q.1, q.2)]) out h
          rw [base, lookup_append_or]
          cases hmn : (pyStrip q.1 == n) with
          | true =>
            have hm : pyStrip q.1 = n := eq_of_beq hmn
            have hnone : List.lookup n ps = none := by
              rw [hm] at hk
              rw [hasKey_eq_lookup_isSome] at hk
              exact Option.not_isSome_iff_eq_none.mp (by simp [hk])
            have hlk : List.lookup n [(pyStrip q.1, q.2)] = some q.2 := by
              rw [hm]
              simp [List.lookup]
            rw [hnone, hlk, List.find?_cons_of_pos _ (by simpa using hmn)]
            rfl
          | false =>
            have hne : n ≠ pyStrip q.1 := (ne_of_beq_false hmn).symm
            have hlk : List.lookup n [(pyStrip q.1, q.2)] = none := by
              simp [List.lookup, beq_false_of_ne hne]
            rw [hlk, List.find?_cons_of_neg _ (by simpa using hmn)]
            simp [Option.or_none]

/-! ### Claim C7 -/

/-- C7: duplicate requirement names — when a row parses to a parameter name
that is already registered, `fill_params_dict` leaves the table unchanged
(the later expected value is dropped, never overwriting the stored one)
and prints the duplicate warning; and over any whole sequence of rows, the
value stored for a name is exactly the value of the *first* row that
parses to that name. -/
theorem fill_params_first_wins :
    (∀ (ot t : String) (ps : List (String × String)) (q : String × String),
        containsSub "Requirement" ot = true →
        get_param (pyReplace t) = some q →
        hasKey (pyStrip q.1) ps = true →
        fill_params_dict (some ot) (some t) ps = some (ps, none, true))
    ∧ (∀ (rows out : List (String × String)) (n : String),
        process_rows [] (rows.map (fun r => (some r.1, some r.2))) = some out →
        List.lookup n out =
          (((rows.filterMap parse_row).find? (fun p => p.1 == n)).map Prod.snd)) := by
  constructor
  · intro ot t ps q h hg hk
    exact fill_duplicate h hg hk
  · intro rows out n h
    have := process_rows_lookup n rows [] out h
    simpa [List.lookup] using this

/-- C7 witness: two rows defining `A` with values `5` then `6` — the second
row leaves the table unchanged with the warning raised, and the stored
value for `A` is the first row's `5`. -/
theorem fill_params_first_wins_witness :
    fill_params_dict (some "Requirement") (some "A shall be set to 6") [("A", "5")]
      = some ([("A", "5")], none, true)
    ∧ List.lookup "A" [("A", "5")] =
        ((([("Requirement", "A shall be set to 5"),
            ("Requirement", "A shall be set to 6")].filterMap parse_row).find?
          (fun p => p.1 == "A")).map Prod.snd) :=
  ⟨fill_params_first_wins.1 "Requirement" "A shall be set to 6" [("A", "5")]
      ("A ", "6") rfl rfl rfl,
   fill_params_first_wins.2
      [("Requirement", "A shall be set to 5"), ("Requirement", "A shall be set to 6")]
      [("A", "5")] "A" rfl⟩

/-! ### `compute_params` lemmas (claims C1, C4) -/

theorem compute_param_shape {n e : String} {rs : List Occ}
    {r1 r2 r3 : List (String × ContainerDict)}
    (h : compute_param n e rs = some (r1, r2, r3)) :
    (∃ cd, r1 = [(n, cd)] ∧ r2 = [] ∧ r3 = []) ∨
    (r1 = [] ∧ (∃ cd, r2 = [(n, cd)]) ∧ r3 = []) ∨
    (r1 = [] ∧ r2 = [] ∧ ∃ cd, r3 = [(n, cd)]) := by
  unfold compute_param at h
  split at h
  · obtain ⟨h1, h2, h3⟩ : _ ∧ _ ∧ _ := by simpa using h
    right; left
    exact ⟨h1, ⟨_, h2.symm⟩, h3⟩
  · split at h
    · simp at h
    · split at h
      · obtain ⟨h1, h2, h3⟩ : _ ∧ _ ∧ _ := by simpa using h
        left
        exact ⟨_, h1.symm, h2, h3⟩
      · obtain ⟨h1, h2, h3⟩ : _ ∧ _ ∧ _ := by simpa using h
        right; right
        exact ⟨h1, h2, _, h3.symm⟩

theorem cpa_keys_perm (tbl : List (String × List Occ)) :
    ∀ (ps : List (String × String))
      (a0 b0 c0 d0 a b c d : List (String × ContainerDict)),
      compute_params_aux tbl ps (a0, b0, c0, d0) = some (a, b, c, d) →
      ∃ ea eb ec ed,
        a = a0 ++ ea ∧ b = b0 ++ eb ∧ c = c0 ++ ec ∧ d = d0 ++ ed ∧
        (keysB ea ++ (keysB eb ++ (keysB ec ++ keysB ed))).Perm
          (ps.map Prod.fst) := by
  intro ps
  induction ps with
  | nil =>
    intro a0 b0 c0 d0 a b c d h
    rw [compute_params_aux] at h
    obtain ⟨h1, h2, h3, h4⟩ : _ ∧ _ ∧ _ ∧ _ := by simpa using h
    refine ⟨[], [], [], [], by simp [h1], by simp [h2], by simp [h3], by simp [h4], ?_⟩
    simp [keysB]
  | cons p rest ih =>
    obtain ⟨m, w⟩ := p
    intro a0 b0 c0 d0 a b c d h
    rw [compute_params_aux] at h
    split at h
    · -- the name is absent from the occurrence table: NOT_FOUND
      obtain ⟨ea, eb, ec, ed, ha, hb, hc, hd, hperm⟩ :=
        ih _ _ _ _ _ _ _ _ h
      refine ⟨ea, (m, not_found_dict m w) :: eb, ec, ed, ha, ?_, hc, hd, ?_⟩
      · rw [hb, List.append_assoc]
        rfl
      · rw [List.perm_iff_count]
        intro y
        have hcount := (List.perm_iff_count.mp hperm) y
        simp only [keysB, List.map_cons, List.count_append, List.count_cons] at *
        omega
    · rename_i res heq
      split at h
      · simp at h
      · rename_i r1 r2 r3 hcp
        obtain ⟨ea, eb, ec, ed, ha, hb, hc, hd, hperm⟩ :=
          ih _ _ _ _ _ _ _ _ h
        rcases compute_param_shape hcp with
          ⟨cd, hr1, hr2, hr3⟩ | ⟨hr1, ⟨cd, hr2⟩, hr3⟩ | ⟨hr1, hr2, cd, hr3⟩
        · subst hr1; subst hr2; subst hr3
          refine ⟨(m, cd) :: ea, eb, ec, ed, ?_, hb, ?_, ?_, ?_⟩
          · rw [ha, List.append_assoc]
            rfl
          · rw [hc, List.append_nil]
          · rw [hd, List.append_nil]
          · rw [List.perm_iff_count]
            intro y
            have hcount := (List.perm_iff_count.mp hperm) y
            simp only [keysB, List.map_cons, List.count_append, List.count_cons] at *
            omega
        · subst hr1; subst hr2; subst hr3
          refine ⟨ea, eb, (m, cd) :: ec, ed, ?_, hb, ?_, ?_, ?_⟩
          · rw [ha, List.append_nil]
          · rw [hc, List.append_assoc]
            rfl
          · rw [hd, List.append_nil]
          · rw [List.perm_iff_count]
            intro y
            have hcount := (List.perm_iff_count.mp hperm) y
            simp only [keysB, List.map_cons, List.count_append, List.count_cons] at *
            omega
        · subst hr1; subst hr2; subst hr3
          refine ⟨ea, eb, ec, (m, cd) :: ed, ?_, hb, ?_, ?_, ?_⟩
          · rw [ha, List.append_nil]
          · rw [hc, List.append_nil]
          · rw [hd, List.append_assoc]
            rfl
          · rw [List.perm_iff_count]
            intro y
            have hcount := (List.perm_iff_count.mp hperm) y
            simp only [keysB, List.map_cons, List.count_append, List.count_cons] at *
            omega

/-! ### Claim C1 -/

/-- C1: for every expected-parameter table (with the unique keys a Python
dict guarantees) and every occurrence table, whenever `compute_params`
returns, its four result dictionaries
(`values_as_expected`, `nothing_found_container`, `cannot_decide_value`,
`not_equal_expected_actual_values`) have pairwise disjoint key sets whose
union is exactly the set of expected parameter names. -/
theorem compute_params_partition
    (ps : List (String × String)) (tbl : List (String × List Occ))
    (a b c d : List (String × ContainerDict))
    (h : compute_params ps tbl = some (a, b, c, d))
    (hnd : (ps.map Prod.fst).Nodup) (n : String) :
    ((n ∈ keysB a ∨ n ∈ keysB b ∨ n ∈ keysB c ∨ n ∈ keysB d) ↔ n ∈ ps.map Prod.fst)
    ∧ List.Disjoint (keysB a) (keysB b) ∧ List.Disjoint (keysB a) (keysB c)
    ∧ List.Disjoint (keysB a) (keysB d) ∧ List.Disjoint (keysB b) (keysB c)
    ∧ List.Disjoint (keysB b) (keysB d) ∧ List.Disjoint (keysB c) (keysB d) := by
  obtain ⟨ea, eb, ec, ed, ha, hb, hc, hd, hperm⟩ :=
    cpa_keys_perm tbl ps [] [] [] [] a b c d h
  rw [List.nil_append] at ha hb hc hd
  subst ha; subst hb; subst hc; subst hd
  have hnd2 : (keysB a ++ (keysB b ++ (keysB c ++ keysB d))).Nodup :=
    (hperm.nodup_iff).mpr hnd
  rw [List.nodup_append] at hnd2
  obtain ⟨_, h2, h12⟩ := hnd2
  rw [List.nodup_append] at h2
  obtain ⟨_, h4, h34⟩ := h2
  rw [List.nodup_append] at h4
  obtain ⟨_, _, h56⟩ := h4
  have hmem := fun x => (hperm.mem_iff (a := x))
  refine ⟨?_, ?_, ?_, ?_, ?_, ?_, ?_⟩
  · constructor
    · intro hor
      apply (hmem n).mp
      simp only [List.mem_append]
      tauto
    · intro hin
      have := (hmem n).mpr hin
      simp only [List.mem_append] at this
      tauto
  · intro x hx hy
    exact h12 hx (by simp only [List.mem_append]; exact Or.inl hy)
  · intro x hx hy
    exact h12 hx (by simp only [List.mem_append]; exact Or.inr (Or.inl hy))
  · intro x hx hy
    exact h12 hx (by simp only [List.mem_append]; exact Or.inr (Or.inr hy))
  · intro x hx hy
    exact h34 hx (by simp only [List.mem_append]; exact Or.inl hy)
  · intro x hx hy
    exact h34 hx (by simp only [List.mem_append]; exact Or.inr hy)
  · intro x hx hy
    exact h56 hx hy

/-- C1 witness: one parameter found and agreeing, one absent — the agreed
and not-found buckets each hold exactly their parameter and the partition
holds at the found name. -/
theorem compute_params_partition_witness :
    (("a" ∈ keysB [("a", get_container_dict "a" "1"
          (actual_value_acc [Occ.mk "f" "l" "1"] ++ computedValueMsg "1")
          (found_field [Occ.mk "f" "l" "1"]))]
      ∨ "a" ∈ keysB [("b", not_found_dict "b" "2")]
      ∨ "a" ∈ keysB ([] : List (String × ContainerDict))
      ∨ "a" ∈ keysB ([] : List (String × ContainerDict)))
      ↔ "a" ∈ [("a", "1"), ("b", "2")].map Prod.fst)
    ∧ List.Disjoint
        (keysB [("a", get_container_dict "a" "1"
          (actual_value_acc [Occ.mk "f" "l" "1"] ++ computedValueMsg "1")
          (found_field [Occ.mk "f" "l" "1"]))])
        (keysB [("b", not_found_dict "b" "2")])
    ∧ List.Disjoint
        (keysB [("a", get_container_dict "a" "1"
          (actual_value_acc [Occ.mk "f" "l" "1"] ++ computedValueMsg "1")
          (found_field [Occ.mk "f" "l" "1"]))])
        (keysB ([] : List (String × ContainerDict)))
    ∧ List.Disjoint
        (keysB [("a", get_container_dict "a" "1"
          (actual_value_acc [Occ.mk "f" "l" "1"] ++ computedValueMsg "1")
          (found_field [Occ.mk "f" "l" "1"]))])
        (keysB ([] : List (String × ContainerDict)))
    ∧ List.Disjoint (keysB [("b", not_found_dict "b" "2")])
        (keysB ([] : List (String × ContainerDict)))
    ∧ List.Disjoint (keysB [("b", not_found_dict "b" "2")])
        (keysB ([] : List (String × ContainerDict)))
    ∧ List.Disjoint (keysB ([] : List (String × ContainerDict)))
        (keysB ([] : List (String × ContainerDict))) :=
  compute_params_partition [("a", "1"), ("b", "2")] [("a", [Occ.mk "f" "l" "1"])]
    [("a", get_container_dict "a" "1"
        (actual_value_acc [Occ.mk "f" "l" "1"] ++ computedValueMsg "1")
        (found_field [Occ.mk "f" "l" "1"]))]
    [("b", not_found_dict "b" "2")] [] [] rfl (by decide) "a"

theorem cpa_not_found (tbl : List (String × List Occ)) (n v : String)
    (hl : List.lookup n tbl = none) :
    ∀ (ps : List (String × String))
      (a0 b0 c0 d0 a b c d : List (String × ContainerDict)),
      compute_params_aux tbl ps (a0, b0, c0, d0) = some (a, b, c, d) →
      (ps.map Prod.fst).Nodup → (n, v) ∈ ps → List.lookup n b0 = none →
      List.lookup n b = some (not_found_dict n v) := by
  intro ps
  induction ps with
  | nil =>
    intro a0 b0 c0 d0 a b c d h hnd hmem hb0
    simp at hmem
  | cons p rest ih =>
    obtain ⟨m, w⟩ := p
    intro a0 b0 c0 d0 a b c d h hnd hmem hb0
    rw [List.map_cons, List.nodup_cons] at hnd
    rw [compute_params_aux] at h
    rcases List.mem_cons.mp hmem with hhead | htail
    · obtain ⟨rfl, rfl⟩ : m = n ∧ w = v := by
        have := hhead
        simp [Prod.ext_iff] at this
        exact ⟨this.1.symm, this.2.symm⟩
      split at h
      · obtain ⟨ea, eb, ec, ed, _, hb, _, _, _⟩ :=
          cpa_keys_perm tbl rest _ _ _ _ _ _ _ _ h
        rw [hb, List.append_assoc, lookup_append_or, hb0]
        simp [List.lookup]
      · rename_i res heq
        rw [hl] at heq
        simp at heq
    · have hnm : m ≠ n := by
        intro hEq
        apply hnd.1
        rw [hEq]
        exact List.mem_map.mpr ⟨(n, v), htail, rfl⟩
      split at h
      · apply ih _ _ _ _ _ _ _ _ h hnd.2 htail
        rw [lookup_append_or, hb0]
        simp [List.lookup, beq_false_of_ne (Ne.symm hnm)]
      · split at h
        · simp at h
        · exact ih _ _ _ _ _ _ _ _ h hnd.2 htail hb0

/-! ### Claim C4 -/

/-- C4: every expected parameter whose name has no entry in the occurrence
table is classified NOT_FOUND: the `nothing_found_container` bucket maps it
to a `ParameterResult` whose `actual_value` and `found_in` fields are both
the explicit `"not found"` marker while `expected_value` keeps the original
expected value. -/
theorem compute_params_not_found
    (ps : List (String × String)) (tbl : List (String × List Occ))
    (n v : String) (a b c d : List (String × ContainerDict))
    (h : compute_params ps tbl = some (a, b, c, d))
    (hnd : (ps.map Prod.fst).Nodup) (hmem : (n, v) ∈ ps)
    (hl : List.lookup n tbl = none) :
    List.lookup n b = some ⟨n, v, "not found", "not found"⟩ :=
  cpa_not_found tbl n v hl ps [] [] [] [] a b c d h hnd hmem rfl

/-- C4 witness: parameter `b` expected `2` with an empty occurrence table
is reported not found with its expected value preserved. -/
theorem compute_params_not_found_witness :
    List.lookup "b" [("b", not_found_dict "b" "2")]
      = some (⟨"b", "2", "not found", "not found"⟩ : ContainerDict) :=
  compute_params_not_found [("b", "2")] [] "b" "2"
    [] [("b", not_found_dict "b" "2")] [] [] rfl (by decide)
    (List.mem_cons_self _ _) rfl

/-! ### `search_for_param` invariants (claim C10) -/

theorem addOcc_preserves {tbl : List (String × List Occ)} {n : String} {o : Occ}
    (h : ∀ p ∈ tbl, p.2 ≠ []) : ∀ p ∈ addOcc tbl n o, p.2 ≠ [] := by
  intro p hp
  unfold addOcc at hp
  split at hp
  · obtain ⟨q, hq, rfl⟩ := List.mem_map.mp hp
    split
    · simp
    · exact h q hq
  · rcases List.mem_append.mp hp with h1 | h2
    · exact h p h1
    · have hp2 : p = (n, [o]) := by simpa using h2
      rw [hp2]
      simp

theorem foldl_addOcc_preserves :
    ∀ (occs : List (String × Occ)) (tbl : List (String × List Occ)),
      (∀ p ∈ tbl, p.2 ≠ []) →
      ∀ p ∈ occs.foldl (fun t q => addOcc t q.1 q.2) tbl, p.2 ≠ [] := by
  intro occs
  induction occs with
  | nil =>
    intro tbl h
    simpa using h
  | cons q rest ih =>
    intro tbl h
    rw [List.foldl_cons]
    exact ih _ (addOcc_preserves h)

theorem search_aux_preserves (params : List String) :
    ∀ (files : List (String × List String)) (tbl out : List (String × List Occ)),
      (∀ p ∈ tbl, p.2 ≠ []) → search_aux params files tbl = some out →
      ∀ p ∈ out, p.2 ≠ [] := by
  intro files
  induction files with
  | nil =>
    intro tbl out h hs
    rw [search_aux] at hs
    obtain rfl : tbl = out := by simpa using hs
    exact h
  | cons f fs ih =>
    intro tbl out h hs
    rw [search_aux] at hs
    split at hs
    · simp at hs
    · exact ih _ _ (foldl_addOcc_preserves _ _ h) hs

theorem compute_params_aux_isSome (tbl : List (String × List Occ))
    (hinv : ∀ p ∈ tbl, p.2 ≠ []) :
    ∀ (ps : List (String × String)) acc,
      (compute_params_aux tbl ps acc).isSome := by
  intro ps
  induction ps with
  | nil =>
    intro acc
    rw [compute_params_aux]
    rfl
  | cons p rest ih =>
    obtain ⟨m, w⟩ := p
    intro acc
    obtain ⟨a, b, c, d⟩ := acc
    rw [compute_params_aux]
    split
    · exact ih _
    · rename_i res heq
      have hres : res ≠ [] := hinv (m, res) (lookup_mem heq)
      split
      · rename_i hcp
        have hs := compute_param_isSome (n := m) (e := w) hres
        rw [hcp] at hs
        simp at hs
      · exact ih _

/-! ### Claim C10 -/

/-- C10: every key present in the occurrence table returned by
`search_for_param` maps to a non-empty occurrence list (each occurrence a
triple with its value present by construction); consequently feeding the
table to `compute_params` never reaches `next(iter(value_decider))` on an
empty set — `compute_params` always returns. -/
theorem search_result_occurrences_nonempty
    (params : List String) (files : List (String × List String))
    (tbl : List (String × List Occ)) (n : String) (l : List Occ)
    (ps : List (String × String))
    (h : search_for_param params files = some tbl)
    (hl : List.lookup n tbl = some l) :
    l ≠ [] ∧ (compute_params ps tbl).isSome := by
  have hinv : ∀ p ∈ tbl, p.2 ≠ [] :=
    search_aux_preserves params files [] tbl (by simp) h
  exact ⟨hinv (n, l) (lookup_mem hl), compute_params_aux_isSome tbl hinv ps _⟩

/-- C10 witness: a one-file scan producing one occurrence of `MyP`, whose
table entry is non-empty and reconciles without crashing. -/
theorem search_result_occurrences_nonempty_witness :
    [Occ.mk "f.arxml" "<DEFINITION-REF>/Pkg/MyP</DEFINITION-REF>" "1"] ≠ []
    ∧ (compute_params [("MyP", "1")]
        [("MyP", [Occ.mk "f.arxml" "<DEFINITION-REF>/Pkg/MyP</DEFINITION-REF>" "1"])]).isSome :=
  search_result_occurrences_nonempty ["MyP"]
    [("f.arxml", ["<DEFINITION-REF>/Pkg/MyP</DEFINITION-REF>", "<VALUE>1</VALUE>"])]
    [("MyP", [Occ.mk "f.arxml" "<DEFINITION-REF>/Pkg/MyP</DEFINITION-REF>" "1"])]
    "MyP" [Occ.mk "f.arxml" "<DEFINITION-REF>/Pkg/MyP</DEFINITION-REF>" "1"]
    [("MyP", "1")] rfl rfl
